import Mathlib

/-!
Shallow embedding of the `ruceki` CEK machine (files `ast.rs`, `val.rs`,
`cek.rs`).  Rust `i64` values are modelled as `Int` together with explicit
two's-complement wrapping (`wrap64`); `usize` indices are `Nat`.  All fatal
conditions (Rust `panic!` / `expect`) are modelled by `Option`, `none`
meaning the run aborts.  The input and output byte streams that the state
borrows (`State::from_expr(&entry, &mut input, &mut output)` in `tests.rs`)
are threaded through the state as explicit lists of bytes.
-/

namespace Ruceki

/-- The built-in operations (`enum External` in `ast.rs`). -/
inductive Ext where
  | add | sub | mul | neg
  | eq | le | lt | gt | ge
  | chr | ord
  | puti | putc | geti | getc
  | seq
deriving DecidableEq

/-- Rust `External::arity` from `ast.rs`. -/
def Ext.arity : Ext → Nat
  | .add => 2
  | .sub => 2
  | .mul => 2
  | .neg => 1
  | .eq => 2
  | .le => 2
  | .lt => 2
  | .gt => 2
  | .ge => 2
  | .chr => 1
  | .ord => 1
  | .puti => 1
  | .putc => 1
  | .geti => 1
  | .getc => 1
  | .seq => 2

mutual

/-- Rust `enum Expr` from `ast.rs`.  The single-definition `Let` (`Defn` with `lhs`, `rhs`)
is flattened into the `Let` constructor. -/
inductive Expr where
  | Local (name : String) (idx : Nat)
  | Global (name : String)
  | External (name : Ext)
  | Pack (tag : Nat) (arity : Nat)
  | Num (int : Int)
  | Ap (f : Expr) (args : List Expr)
  | Let (lhs : String) (rhs : Expr) (body : Expr)
  | Match (scrut : Expr) (altns : List Altn)

/-- Rust `struct Altn` from `ast.rs`. -/
inductive Altn where
  | mk (binds : List (Option String)) (rhs : Expr)

end

/-- The right-hand side of a match alternative. -/
def Altn.rhs : Altn → Expr
  | .mk _ r => r

/-- The binder list of a match alternative. -/
def Altn.binds : Altn → List (Option String)
  | .mk b _ => b

/-- Rust `struct Lambda` from `ast.rs`. -/
structure Lambda where
  binds : List (Option String)
  body : Expr

/-- Rust `type Module = HashMap<Name, Lambda>`, modelled as an association list. -/
def Module := List (String × Lambda)

/-- Lookup `module.get(name)`. -/
def moduleGet : Module → String → Option Lambda
  | [], _ => none
  | (n, lam) :: rest, name => if n = name then some lam else moduleGet rest name

/-- Rust `enum Prim` from `val.rs`. -/
inductive Prim where
  | Global (name : String) (lam : Lambda)
  | External (name : Ext)
  | Pack (tag : Nat) (arity : Nat)

/-- Rust `enum Value` from `val.rs`.  The `Rc` sharing is immaterial for the semantics
and is dropped. -/
inductive Value where
  | Num (n : Int)
  | Pack (tag : Nat) (args : List Value)
  | PAP (prim : Prim) (args : List Value) (missing : Nat)

/-- The arity of a primitive: the binder count for globals, the fixed
built-in arity for externals, the recorded arity for constructors. -/
def Prim.arity : Prim → Nat
  | .Global _ lam => lam.binds.length
  | .External name => name.arity
  | .Pack _ a => a

/-- Rust `Value::as_i64`; the panic on a non-`Num` argument becomes `none`. -/
def asI64 : Value → Option Int
  | .Num n => some n
  | _ => none

/-- Two's-complement wrapping of a mathematical integer into `i64` range.
Rust `i64` arithmetic is wrapping two's-complement (release builds); the
spec fixes this as the intended semantics. -/
def wrap64 (n : Int) : Int := (n + 2 ^ 63) % 2 ^ 64 - 2 ^ 63

/-- Rust `Value::rc_from_bool`: `false ↦ Pack(0,[])`, `true ↦ Pack(1,[])`. -/
def rcFromBool (b : Bool) : Value := .Pack (cond b 1 0) []

/-- Division-by-ten digit extraction with structural fuel (any fuel at
least the digit count gives the digits; `n` itself always suffices). -/
def natDecDigitsAux : Nat → Nat → List Nat
  | 0, n => [48 + n % 10]
  | fuel + 1, n =>
    if n < 10 then [48 + n] else natDecDigitsAux fuel (n / 10) ++ [48 + n % 10]

/-- The decimal digits (as ASCII bytes) of a natural number, most
significant first; mirrors Rust `Display` for unsigned integers. -/
def natDecDigits (n : Nat) : List Nat := natDecDigitsAux n n

/-- The bytes Rust `Display` writes for an `i64` value: an optional minus
sign followed by the decimal digits. -/
def intDecBytes (n : Int) : List Nat :=
  if n < 0 then 45 :: natDecDigits (-n).toNat else natDecDigits n.toNat

/-- The UTF-8 encoding of a code point below `0x100`, as produced by Rust
when formatting a `char` obtained from a `u8`.  One byte below `0x80`,
two bytes above. -/
def utf8EncodeByte (cp : Nat) : List Nat :=
  if cp < 0x80 then [cp] else [0xC0 + cp / 0x40, 0x80 + cp % 0x40]

/-- Rust `BufRead::read_line` consumes bytes up to and including the first
newline (`0x0A`); at end of input it consumes what is left. -/
def splitLine : List Nat → List Nat × List Nat
  | [] => ([], [])
  | b :: rest =>
    if b = 10 then ([10], rest)
    else
      let p := splitLine rest
      (b :: p.1, p.2)

/-- UTF-8 decoding of a byte list into code points, with the validity
checks Rust performs (continuation bytes, overlong forms, surrogates,
code-point range).  `none` models the `InvalidData` error of
`read_line`. -/
def utf8Decode : List Nat → Option (List Nat)
  | [] => some []
  | b :: rest =>
    if b < 0x80 then (utf8Decode rest).map (b :: ·)
    else if b < 0xC2 then none
    else if b < 0xE0 then
      match rest with
      | b2 :: rest2 =>
        if 0x80 ≤ b2 ∧ b2 < 0xC0 then
          (utf8Decode rest2).map (((b - 0xC0) * 0x40 + (b2 - 0x80)) :: ·)
        else none
      | [] => none
    else if b < 0xF0 then
      match rest with
      | b2 :: b3 :: rest3 =>
        if (0x80 ≤ b2 ∧ b2 < 0xC0) ∧ (0x80 ≤ b3 ∧ b3 < 0xC0) then
          let cp := (b - 0xE0) * 0x1000 + (b2 - 0x80) * 0x40 + (b3 - 0x80)
          if 0x800 ≤ cp ∧ ¬(0xD800 ≤ cp ∧ cp < 0xE000) then
            (utf8Decode rest3).map (cp :: ·)
          else none
        else none
      | _ => none
    else if b < 0xF5 then
      match rest with
      | b2 :: b3 :: b4 :: rest4 =>
        if (0x80 ≤ b2 ∧ b2 < 0xC0) ∧ (0x80 ≤ b3 ∧ b3 < 0xC0) ∧ (0x80 ≤ b4 ∧ b4 < 0xC0) then
          let cp := (b - 0xF0) * 0x40000 + (b2 - 0x80) * 0x1000 + (b3 - 0x80) * 0x40 + (b4 - 0x80)
          if 0x10000 ≤ cp ∧ cp < 0x110000 then
            (utf8Decode rest4).map (cp :: ·)
          else none
        else none
      | _ => none
    else none

/-- The `White_Space` property used by Rust `char::is_whitespace`, on code
points. -/
def isRustWs (cp : Nat) : Bool :=
  (9 ≤ cp ∧ cp ≤ 13) ∨ cp = 32 ∨ cp = 0x85 ∨ cp = 0xA0 ∨ cp = 0x1680 ∨
    (0x2000 ≤ cp ∧ cp ≤ 0x200A) ∨ cp = 0x2028 ∨ cp = 0x2029 ∨ cp = 0x202F ∨
    cp = 0x205F ∨ cp = 0x3000

/-- Rust `str::trim`: drop whitespace from both ends. -/
def rustTrim (l : List Nat) : List Nat :=
  ((l.dropWhile isRustWs).reverse.dropWhile isRustWs).reverse

/-- Whether a code point is an ASCII decimal digit. -/
def isDigitCp (cp : Nat) : Bool := 48 ≤ cp ∧ cp ≤ 57

/-- The value of a non-empty all-digit code-point list, `none` otherwise. -/
def parseDigits : List Nat → Option Nat
  | [] => none
  | l =>
    if l.all isDigitCp then
      some (l.foldl (fun acc cp => acc * 10 + (cp - 48)) 0)
    else none

/-- Rust `i64::from_str` on a trimmed line: an optional sign, then one or
more ASCII digits, and the resulting value must fit in `i64` (the
accumulation overflow check is equivalent to a final range check). -/
def rustParseI64 (cps : List Nat) : Option Int :=
  match cps with
  | [] => none
  | c :: rest =>
    let sd : Int × List Nat :=
      if c = 43 then (1, rest) else if c = 45 then (-1, rest) else (1, cps)
    match parseDigits sd.2 with
    | none => none
    | some n =>
      let v : Int := sd.1 * n
      if -(2 ^ 63) ≤ v ∧ v < 2 ^ 63 then some v else none

/-- Rust `Value::eval_external` from `val.rs`.  Takes the remaining input bytes
and the output bytes so far, returns the result value and the new
streams; `none` models every `panic!`/`expect` in the function (arity
mismatch, `as_i64` on a non-number, unreadable or unparseable `geti`
input). -/
def evalExternal (name : Ext) (args : List Value) (input output : List Nat) :
    Option (Value × List Nat × List Nat) :=
  if args.length = name.arity then
    match name, args with
    | .add, [a, b] => do
      let x ← asI64 a
      let y ← asI64 b
      pure (.Num (wrap64 (x + y)), input, output)
    | .sub, [a, b] => do
      let x ← asI64 a
      let y ← asI64 b
      pure (.Num (wrap64 (x - y)), input, output)
    | .mul, [a, b] => do
      let x ← asI64 a
      let y ← asI64 b
      pure (.Num (wrap64 (x * y)), input, output)
    | .neg, [a] => do
      let x ← asI64 a
      pure (.Num (wrap64 (-x)), input, output)
    | .eq, [a, b] => do
      let x ← asI64 a
      let y ← asI64 b
      pure (rcFromBool (decide (x = y)), input, output)
    | .le, [a, b] => do
      let x ← asI64 a
      let y ← asI64 b
      pure (rcFromBool (decide (x ≤ y)), input, output)
    | .lt, [a, b] => do
      let x ← asI64 a
      let y ← asI64 b
      pure (rcFromBool (decide (x < y)), input, output)
    | .gt, [a, b] => do
      let x ← asI64 a
      let y ← asI64 b
      pure (rcFromBool (decide (y < x)), input, output)
    | .ge, [a, b] => do
      let x ← asI64 a
      let y ← asI64 b
      pure (rcFromBool (decide (y ≤ x)), input, output)
    | .chr, [a] => do
      let x ← asI64 a
      pure (.Num (x % 256), input, output)
    | .ord, [a] => do
      let x ← asI64 a
      pure (.Num x, input, output)
    | .puti, [a] => do
      let x ← asI64 a
      pure (.Pack 0 [], input, output ++ intDecBytes x ++ [10])
    | .putc, [a] => do
      let x ← asI64 a
      pure (.Pack 0 [], input, output ++ utf8EncodeByte (x % 256).toNat)
    | .geti, [_] => do
      let cps ← utf8Decode (splitLine input).1
      let n ← rustParseI64 (rustTrim cps)
      pure (.Num n, (splitLine input).2, output)
    | .getc, [_] =>
      match input with
      | [] => some (.Num (-1), [], output)
      | b :: rest => some (.Num (Int.ofNat b), rest, output)
    | .seq, [_, b] => some (b, input, output)
    | _, _ => none
  else none

/-- Rust `enum Ctrl` from `cek.rs`.  Here `Evaluating` is the transient sentinel the
stepper installs while it owns the old control; stepping a state whose
control is still `Evaluating` is a fatal internal error. -/
inductive Ctrl where
  | Evaluating
  | Expr (e : Expr)
  | Value (v : Value)

/-- Rust `Ctrl::from_prim`. -/
def Ctrl.fromPrim (prim : Prim) (arity : Nat) : Ctrl :=
  .Value (.PAP prim [] arity)

/-- Rust `enum Kont` from `cek.rs`. -/
inductive Kont where
  | Dump (env : List Value)
  | Pop (count : Nat)
  | Args (args : List Expr)
  | Fun (prim : Prim) (args : List Value) (missing : Nat)
  | Match (altns : List Altn)
  | Let (name : String) (body : Expr)

/-- Rust `struct State` from `cek.rs`, extended with the borrowed input and
output byte streams.  The environment is the Rust `Vec`: index `0` is the
bottom of the stack, the last element is the top; the continuation stack
is kept head-first (the head is the most recently pushed frame). -/
structure State where
  ctrl : Ctrl
  env : List Value
  kont : List Kont
  input : List Nat
  output : List Nat

/-- Rust `Env::get`: `stack.get(len - idx)` with the two fatal cases (`idx = 0`
reads one past the end, `idx > len` underflows the index computation)
mapped to `none`. -/
def envGet (stack : List Value) (idx : Nat) : Option Value :=
  if 1 ≤ idx ∧ idx ≤ stack.length then stack.get? (stack.length - idx) else none

/-- Rust `Env::pop`: truncate to `len - count`; the `usize` underflow when
`count > len` is fatal and mapped to `none`. -/
def envPop (stack : List Value) (count : Nat) : Option (List Value) :=
  if count ≤ stack.length then some (stack.take (stack.length - count)) else none

/-- Rust `State::from_expr`. -/
def fromExpr (e : Expr) (input : List Nat) : State :=
  { ctrl := .Expr e, env := [], kont := [], input := input, output := [] }

/-- Whether a value is a saturated partial application, i.e. matches the
`Value::PAP(_, _, 0)` pattern that fires before any frame is popped. -/
def isSatPAP : Value → Bool
  | .PAP _ _ 0 => true
  | _ => false

/-- The frame-popping half of `State::step` (`cek.rs`): what the stepper
does with a produced value `v` that is not a saturated PAP.  Pops one
continuation frame and interprets it; `none` on an empty continuation
stack, an empty `Args` frame, applying or matching a non-matching value,
an out-of-range constructor tag, or a `usize` underflow (`Env::pop`,
`missing - 1`). -/
def stepKont (v : Value) (env : List Value) (kont : List Kont) (input output : List Nat) :
    Option State :=
  match kont with
  | [] => none
  | k :: ks =>
    match k with
    | .Dump env2 => some ⟨.Value v, env2, ks, input, output⟩
    | .Pop count => (envPop env count).map fun env2 => ⟨.Value v, env2, ks, input, output⟩
    | .Args nextArgs =>
      match v with
      | .PAP prim args missing =>
        match nextArgs with
        | [] => none
        | nextArg :: rest =>
          some ⟨.Expr nextArg, env,
            .Fun prim args missing :: (if rest.isEmpty then ks else .Args rest :: ks),
            input, output⟩
      | _ => none
    | .Fun prim2 args2 missing2 =>
      match missing2 with
      | 0 => none
      | m + 1 => some ⟨.Value (.PAP prim2 (args2 ++ [v]) m), env, ks, input, output⟩
    | .Match altns =>
      match v with
      | .Pack tag args =>
        match altns.get? tag with
        | some altn => some ⟨.Expr altn.rhs, env ++ args, .Pop args.length :: ks, input, output⟩
        | none => none
      | _ => none
    | .Let _ body => some ⟨.Expr body, env ++ [v], .Pop 1 :: ks, input, output⟩

/-- Rust `State::step` from `cek.rs`.  Every `panic!`/`expect` in the stepper is
mapped to `none`: stepping on `Evaluating`, a bad de Bruijn index, an
unknown global, and the fatal cases of `stepKont` above. -/
def step (module : Module) (s : State) : Option State :=
  match s.ctrl with
  | .Evaluating => none
  | .Expr e =>
    match e with
    | .Local _ idx => (envGet s.env idx).map fun v => { s with ctrl := .Value v }
    | .Global name =>
      match moduleGet module name with
      | some lam => some { s with ctrl := Ctrl.fromPrim (.Global name lam) lam.binds.length }
      | none => none
    | .External name => some { s with ctrl := Ctrl.fromPrim (.External name) name.arity }
    | .Pack tag arity => some { s with ctrl := Ctrl.fromPrim (.Pack tag arity) arity }
    | .Num int => some { s with ctrl := .Value (.Num int) }
    | .Ap f args => some { s with ctrl := .Expr f, kont := .Args args :: s.kont }
    | .Let lhs rhs body => some { s with ctrl := .Expr rhs, kont := .Let lhs body :: s.kont }
    | .Match scrut altns => some { s with ctrl := .Expr scrut, kont := .Match altns :: s.kont }
  | .Value v =>
    match v with
    | .PAP prim args 0 =>
      match prim with
      | .Global _ lam =>
        some { s with ctrl := .Expr lam.body, env := args, kont := .Dump s.env :: s.kont }
      | .External name =>
        match evalExternal name args s.input s.output with
        | some (v2, input2, output2) =>
          some { s with ctrl := .Value v2, input := input2, output := output2 }
        | none => none
      | .Pack tag _ => some { s with ctrl := .Value (.Pack tag args) }
    | _ => stepKont v s.env s.kont s.input s.output

/-- Rust `State::is_final`. -/
def isFinal (s : State) : Bool :=
  match s.ctrl with
  | .Value (.Num _) => s.kont.isEmpty
  | .Value (.Pack _ _) => s.kont.isEmpty
  | _ => false

/-- Iterate `step` a fixed number of times. -/
def stepN (module : Module) : Nat → State → Option State
  | 0, s => some s
  | n + 1, s => (step module s).bind (stepN module n)

/-- Rust `State::run`: the driver loop, with explicit fuel; returns the step
count together with the final state, as the Rust driver returns the
count. -/
def runF (module : Module) : Nat → State → Option (Nat × State)
  | 0, s => if isFinal s then some (0, s) else none
  | fuel + 1, s =>
    if isFinal s then some (0, s)
    else
      match step module s with
      | some s2 => (runF module fuel s2).map fun p => (p.1 + 1, p.2)
      | none => none

/-! ## The PAP arity invariant -/

/-- A value is well formed when every `PAP(p, a, m)` node inside it
satisfies `a.length + m = p.arity` (with `m ≥ 0` implicit in `Nat`). -/
inductive ValueOK : Value → Prop where
  | num (n : Int) : ValueOK (.Num n)
  | pack (tag : Nat) (args : List Value) (h : ∀ v ∈ args, ValueOK v) :
      ValueOK (.Pack tag args)
  | pap (p : Prim) (args : List Value) (m : Nat)
      (hlen : args.length + m = p.arity) (h : ∀ v ∈ args, ValueOK v) :
      ValueOK (.PAP p args m)

/-- Well-formedness of a continuation frame: `Dump` frames hold well-formed
values, and `Fun` frames are in-flight PAPs still missing at least one
argument and satisfying the arity equation. -/
def KontOK : Kont → Prop
  | .Dump env => ∀ v ∈ env, ValueOK v
  | .Pop _ => True
  | .Args _ => True
  | .Fun p args m => args.length + m = p.arity ∧ 1 ≤ m ∧ ∀ v ∈ args, ValueOK v
  | .Match _ => True
  | .Let _ _ => True

/-- Well-formedness of the control. -/
def CtrlOK : Ctrl → Prop
  | .Value v => ValueOK v
  | _ => True

/-- Every value reachable from the state (control, environment, or any
continuation frame) is well formed. -/
def StateOK (s : State) : Prop :=
  CtrlOK s.ctrl ∧ (∀ v ∈ s.env, ValueOK v) ∧ ∀ k ∈ s.kont, KontOK k

lemma envGet_mem {env : List Value} {idx : Nat} {v : Value}
    (h : envGet env idx = some v) : v ∈ env := by
  unfold envGet at h
  split at h
  · exact List.get?_mem h
  · exact absurd h (by simp)

lemma envPop_subset {env env2 : List Value} {c : Nat}
    (h : envPop env c = some env2) : env2 ⊆ env := by
  unfold envPop at h
  split at h
  · cases h; exact List.take_subset _ _
  · exact absurd h (by simp)

/-- The result of a built-in is a number, a nullary constructor, or (for
`seq`) one of the arguments themselves. -/
lemma evalExternal_shape {name : Ext} {args : List Value} {i o : List Nat}
    {v2 : Value} {i2 o2 : List Nat}
    (he : evalExternal name args i o = some (v2, i2, o2)) :
    (∃ n, v2 = .Num n) ∨ (∃ t, v2 = .Pack t []) ∨ v2 ∈ args := by
  unfold evalExternal at he
  split at he
  · cases name <;>
      rcases args with _ | ⟨a, _ | ⟨b, _ | ⟨c, t⟩⟩⟩ <;>
      rcases i with _ | ⟨b0, irest⟩ <;>
      simp_all [rcFromBool, Ext.arity, Option.bind_eq_some] <;>
      aesop
  · exact absurd he (by simp)

lemma evalExternal_valueOK {name : Ext} {args : List Value} {i o : List Nat}
    {v2 : Value} {i2 o2 : List Nat}
    (hargs : ∀ v ∈ args, ValueOK v)
    (he : evalExternal name args i o = some (v2, i2, o2)) : ValueOK v2 := by
  rcases evalExternal_shape he with ⟨n, rfl⟩ | ⟨t, rfl⟩ | hmem
  · exact .num n
  · exact .pack t [] (by simp)
  · exact hargs _ hmem

lemma step_value_notsat {m : Module} {v : Value} {env : List Value} {kont : List Kont}
    {i o : List Nat} (hns : isSatPAP v = false) :
    step m ⟨.Value v, env, kont, i, o⟩ = stepKont v env kont i o := by
  cases v with
  | Num n => rfl
  | Pack t a => rfl
  | PAP p a miss =>
    cases miss with
    | zero => simp [isSatPAP] at hns
    | succ m2 => rfl

lemma stepKont_ok {v : Value} {env : List Value} {kont : List Kont} {i o : List Nat}
    {t : State} (hns : isSatPAP v = false) (hv : ValueOK v)
    (henv : ∀ x ∈ env, ValueOK x) (hkont : ∀ k ∈ kont, KontOK k)
    (ht : stepKont v env kont i o = some t) : StateOK t := by
  match kont with
  | [] => simp [stepKont] at ht
  | k :: ks =>
    have hk := hkont k (by simp)
    have hks : ∀ x ∈ ks, KontOK x := fun x hx => hkont x (by simp [hx])
    cases k with
    | Dump env2 =>
      simp only [stepKont] at ht
      injection ht with h; subst h
      exact ⟨hv, hk, hks⟩
    | Pop count =>
      simp only [stepKont, Option.map_eq_some'] at ht
      obtain ⟨env2, hp, rfl⟩ := ht
      exact ⟨hv, fun x hx => henv x (envPop_subset hp hx), hks⟩
    | Args nextArgs =>
      cases v with
      | Num n => simp [stepKont] at ht
      | Pack tg a => simp [stepKont] at ht
      | PAP prim args miss =>
        cases nextArgs with
        | nil => simp [stepKont] at ht
        | cons a rest =>
          simp only [stepKont] at ht
          injection ht with h; subst h
          have hmiss : 1 ≤ miss := by
            cases miss with
            | zero => simp [isSatPAP] at hns
            | succ m2 => omega
          cases hv with
          | pap _ _ _ hlen hargs =>
            refine ⟨trivial, henv, ?_⟩
            intro x hx
            rcases List.mem_cons.mp hx with rfl | hx2
            · exact ⟨hlen, hmiss, hargs⟩
            · cases hrest : rest.isEmpty with
              | true => simp [hrest] at hx2; exact hks x hx2
              | false =>
                simp [hrest] at hx2
                rcases hx2 with rfl | hx3
                · trivial
                · exact hks x hx3
    | Fun prim2 args2 missing2 =>
      cases missing2 with
      | zero => simp [stepKont] at ht
      | succ m2 =>
        simp only [stepKont] at ht
        injection ht with h; subst h
        have hk2 : args2.length + (m2 + 1) = prim2.arity ∧ 1 ≤ m2 + 1 ∧
            ∀ x ∈ args2, ValueOK x := hk
        obtain ⟨hlen2, _, hargs2⟩ := hk2
        refine ⟨ValueOK.pap _ _ _ (by simp; omega) ?_, henv, hks⟩
        intro x hx
        rcases List.mem_append.mp hx with hx2 | hx2
        · exact hargs2 x hx2
        · simp at hx2; subst hx2; exact hv
    | Match altns =>
      cases v with
      | Num n => simp [stepKont] at ht
      | PAP p a miss => simp [stepKont] at ht
      | Pack tag argsv =>
        cases hga : altns[tag]? with
        | none => simp [stepKont, hga] at ht
        | some altn =>
          simp only [stepKont, List.get?_eq_getElem?, hga] at ht
          injection ht with h; subst h
          cases hv with
          | pack _ _ hargs =>
            refine ⟨trivial, ?_, ?_⟩
            · intro x hx
              rcases List.mem_append.mp hx with hx2 | hx2
              · exact henv x hx2
              · exact hargs x hx2
            · intro x hx
              rcases List.mem_cons.mp hx with rfl | hx2
              · trivial
              · exact hks x hx2
    | Let nm body =>
      simp only [stepKont] at ht
      injection ht with h; subst h
      refine ⟨trivial, ?_, ?_⟩
      · intro x hx
        rcases List.mem_append.mp hx with hx2 | hx2
        · exact henv x hx2
        · simp at hx2; subst hx2; exact hv
      · intro x hx
        rcases List.mem_cons.mp hx with rfl | hx2
        · trivial
        · exact hks x hx2

/-- One step of the machine preserves well-formedness of every reachable
value. -/
theorem stateOK_step {m : Module} {s t : State} (hs : StateOK s)
    (ht : step m s = some t) : StateOK t := by
  obtain ⟨c, env, kont, i, o⟩ := s
  obtain ⟨hc, henv, hkont⟩ := hs
  cases c with
  | Evaluating => simp [step] at ht
  | Expr e =>
    cases e with
    | Local nm idx =>
      simp only [step, Option.map_eq_some'] at ht
      obtain ⟨v, hget, rfl⟩ := ht
      exact ⟨henv v (envGet_mem hget), henv, hkont⟩
    | Global nm =>
      cases hmod : moduleGet m nm with
      | none => simp [step, hmod] at ht
      | some lam =>
        simp only [step, hmod] at ht
        injection ht with h; subst h
        exact ⟨ValueOK.pap _ _ _ (by simp [Prim.arity]) (by simp), henv, hkont⟩
    | External nm =>
      simp only [step] at ht
      injection ht with h; subst h
      exact ⟨ValueOK.pap _ _ _ (by simp [Prim.arity]) (by simp), henv, hkont⟩
    | Pack tag ar =>
      simp only [step] at ht
      injection ht with h; subst h
      exact ⟨ValueOK.pap _ _ _ (by simp [Prim.arity]) (by simp), henv, hkont⟩
    | Num n =>
      simp only [step] at ht
      injection ht with h; subst h
      exact ⟨ValueOK.num n, henv, hkont⟩
    | Ap f args =>
      simp only [step] at ht
      injection ht with h; subst h
      refine ⟨trivial, henv, ?_⟩
      intro k hk
      rcases List.mem_cons.mp hk with rfl | hk2
      · trivial
      · exact hkont k hk2
    | Let l r b =>
      simp only [step] at ht
      injection ht with h; subst h
      refine ⟨trivial, henv, ?_⟩
      intro k hk
      rcases List.mem_cons.mp hk with rfl | hk2
      · trivial
      · exact hkont k hk2
    | Match sc alts =>
      simp only [step] at ht
      injection ht with h; subst h
      refine ⟨trivial, henv, ?_⟩
      intro k hk
      rcases List.mem_cons.mp hk with rfl | hk2
      · trivial
      · exact hkont k hk2
  | Value v =>
    cases hsat : isSatPAP v with
    | false =>
      rw [step_value_notsat hsat] at ht
      exact stepKont_ok hsat hc henv hkont ht
    | true =>
      cases v with
      | Num n => simp [isSatPAP] at hsat
      | Pack tg a => simp [isSatPAP] at hsat
      | PAP prim args miss =>
        cases miss with
        | succ m2 => simp [isSatPAP] at hsat
        | zero =>
          have hv : ValueOK (.PAP prim args 0) := hc
          cases hv with
          | pap _ _ _ hlen hargs =>
            cases prim with
            | Global nm lam =>
              simp only [step] at ht
              injection ht with h; subst h
              refine ⟨trivial, hargs, ?_⟩
              intro k hk
              rcases List.mem_cons.mp hk with rfl | hk2
              · exact henv
              · exact hkont k hk2
            | External nm =>
              cases hev : evalExternal nm args i o with
              | none => simp [step, hev] at ht
              | some res =>
                obtain ⟨v2, i2, o2⟩ := res
                simp only [step, hev] at ht
                injection ht with h; subst h
                exact ⟨evalExternal_valueOK hargs hev, henv, hkont⟩
            | Pack tag ar =>
              simp only [step] at ht
              injection ht with h; subst h
              exact ⟨ValueOK.pack _ _ hargs, henv, hkont⟩

/-- The initial state is well formed. -/
lemma stateOK_fromExpr (e : Expr) (inp : List Nat) : StateOK (fromExpr e inp) :=
  ⟨trivial, by simp [fromExpr], by simp [fromExpr]⟩

/-- Iterated stepping preserves well-formedness. -/
lemma stateOK_stepN {m : Module} : ∀ {n : Nat} {s t : State},
    StateOK s → stepN m n s = some t → StateOK t := by
  intro n
  induction n with
  | zero =>
    intro s t hs ht
    simp only [stepN] at ht
    injection ht with h; subst h
    exact hs
  | succ n ih =>
    intro s t hs ht
    simp only [stepN, Option.bind_eq_some] at ht
    obtain ⟨s2, h1, h2⟩ := ht
    exact ih (stateOK_step hs h1) h2

/-! ## The transition system as a relation

One constructor per arm of `State::step`; the `hns` side conditions mark
the saturation check that fires before any frame is popped. -/

/-- The one-step transition relation of the machine, mirroring
`State::step` arm by arm. -/
inductive StepR (module : Module) : State → State → Prop where
  | localIdx (name : String) (idx : Nat) (env : List Value) (kont : List Kont)
      (i o : List Nat) (v : Value) (hv : envGet env idx = some v) :
      StepR module ⟨.Expr (.Local name idx), env, kont, i, o⟩ ⟨.Value v, env, kont, i, o⟩
  | global (name : String) (lam : Lambda) (env : List Value) (kont : List Kont)
      (i o : List Nat) (hl : moduleGet module name = some lam) :
      StepR module ⟨.Expr (.Global name), env, kont, i, o⟩
        ⟨Ctrl.fromPrim (.Global name lam) lam.binds.length, env, kont, i, o⟩
  | external (name : Ext) (env : List Value) (kont : List Kont) (i o : List Nat) :
      StepR module ⟨.Expr (.External name), env, kont, i, o⟩
        ⟨Ctrl.fromPrim (.External name) name.arity, env, kont, i, o⟩
  | packE (tag ar : Nat) (env : List Value) (kont : List Kont) (i o : List Nat) :
      StepR module ⟨.Expr (.Pack tag ar), env, kont, i, o⟩
        ⟨Ctrl.fromPrim (.Pack tag ar) ar, env, kont, i, o⟩
  | num (n : Int) (env : List Value) (kont : List Kont) (i o : List Nat) :
      StepR module ⟨.Expr (.Num n), env, kont, i, o⟩ ⟨.Value (.Num n), env, kont, i, o⟩
  | ap (f : Expr) (args : List Expr) (env : List Value) (kont : List Kont) (i o : List Nat) :
      StepR module ⟨.Expr (.Ap f args), env, kont, i, o⟩
        ⟨.Expr f, env, .Args args :: kont, i, o⟩
  | letE (lhs : String) (rhs body : Expr) (env : List Value) (kont : List Kont)
      (i o : List Nat) :
      StepR module ⟨.Expr (.Let lhs rhs body), env, kont, i, o⟩
        ⟨.Expr rhs, env, .Let lhs body :: kont, i, o⟩
  | matchE (sc : Expr) (alts : List Altn) (env : List Value) (kont : List Kont)
      (i o : List Nat) :
      StepR module ⟨.Expr (.Match sc alts), env, kont, i, o⟩
        ⟨.Expr sc, env, .Match alts :: kont, i, o⟩
  | satGlobal (name : String) (lam : Lambda) (args env : List Value) (kont : List Kont)
      (i o : List Nat) :
      StepR module ⟨.Value (.PAP (.Global name lam) args 0), env, kont, i, o⟩
        ⟨.Expr lam.body, args, .Dump env :: kont, i, o⟩
  | satExternal (name : Ext) (args : List Value) (env : List Value) (kont : List Kont)
      (i o : List Nat) (v2 : Value) (i2 o2 : List Nat)
      (he : evalExternal name args i o = some (v2, i2, o2)) :
      StepR module ⟨.Value (.PAP (.External name) args 0), env, kont, i, o⟩
        ⟨.Value v2, env, kont, i2, o2⟩
  | satPack (tag ar : Nat) (args env : List Value) (kont : List Kont) (i o : List Nat) :
      StepR module ⟨.Value (.PAP (.Pack tag ar) args 0), env, kont, i, o⟩
        ⟨.Value (.Pack tag args), env, kont, i, o⟩
  | dump (v : Value) (env env2 : List Value) (ks : List Kont) (i o : List Nat)
      (hns : isSatPAP v = false) :
      StepR module ⟨.Value v, env, .Dump env2 :: ks, i, o⟩ ⟨.Value v, env2, ks, i, o⟩
  | popF (v : Value) (env env2 : List Value) (count : Nat) (ks : List Kont) (i o : List Nat)
      (hns : isSatPAP v = false) (hp : envPop env count = some env2) :
      StepR module ⟨.Value v, env, .Pop count :: ks, i, o⟩ ⟨.Value v, env2, ks, i, o⟩
  | argsF (prim : Prim) (args : List Value) (miss : Nat) (a : Expr) (rest : List Expr)
      (env : List Value) (ks : List Kont) (i o : List Nat) (hm : miss ≠ 0) :
      StepR module ⟨.Value (.PAP prim args miss), env, .Args (a :: rest) :: ks, i, o⟩
        ⟨.Expr a, env,
          .Fun prim args miss :: (if rest.isEmpty then ks else .Args rest :: ks), i, o⟩
  | funF (v : Value) (prim2 : Prim) (args2 : List Value) (m2 : Nat) (env : List Value)
      (ks : List Kont) (i o : List Nat) (hns : isSatPAP v = false) :
      StepR module ⟨.Value v, env, .Fun prim2 args2 (m2 + 1) :: ks, i, o⟩
        ⟨.Value (.PAP prim2 (args2 ++ [v]) m2), env, ks, i, o⟩
  | matchF (tag : Nat) (argsv : List Value) (altns : List Altn) (altn : Altn)
      (env : List Value) (ks : List Kont) (i o : List Nat)
      (ha : altns.get? tag = some altn) :
      StepR module ⟨.Value (.Pack tag argsv), env, .Match altns :: ks, i, o⟩
        ⟨.Expr altn.rhs, env ++ argsv, .Pop argsv.length :: ks, i, o⟩
  | letF (v : Value) (nm : String) (body : Expr) (env : List Value) (ks : List Kont)
      (i o : List Nat) (hns : isSatPAP v = false) :
      StepR module ⟨.Value v, env, .Let nm body :: ks, i, o⟩
        ⟨.Expr body, env ++ [v], .Pop 1 :: ks, i, o⟩

/-- Every transition of the relation is computed by the step function. -/
theorem stepR_step {m : Module} {s t : State} (h : StepR m s t) : step m s = some t := by
  cases h with
  | localIdx name idx env kont i o v hv => simp [step, hv]
  | global name lam env kont i o hl => simp [step, hl]
  | external name env kont i o => rfl
  | packE tag ar env kont i o => rfl
  | num n env kont i o => rfl
  | ap f args env kont i o => rfl
  | letE lhs rhs body env kont i o => rfl
  | matchE sc alts env kont i o => rfl
  | satGlobal name lam args env kont i o => rfl
  | satExternal name args env kont i o v2 i2 o2 he => simp [step, he]
  | satPack tag ar args env kont i o => rfl
  | dump v env env2 ks i o hns => rw [step_value_notsat hns]; rfl
  | popF v env env2 count ks i o hns hp =>
    rw [step_value_notsat hns]; simp [stepKont, hp]
  | argsF prim args miss a rest env ks i o hm =>
    have hns : isSatPAP (Value.PAP prim args miss) = false := by
      cases miss with
      | zero => exact absurd rfl hm
      | succ k => rfl
    rw [step_value_notsat hns]; rfl
  | funF v prim2 args2 m2 env ks i o hns => rw [step_value_notsat hns]; rfl
  | matchF tag argsv altns altn env ks i o ha =>
    rw [step_value_notsat (by rfl)]
    rw [List.get?_eq_getElem?] at ha
    simp [stepKont, ha]
  | letF v nm body env ks i o hns => rw [step_value_notsat hns]; rfl

/-- The transition relation is deterministic. -/
theorem stepR_det {m : Module} {s t1 t2 : State} (h1 : StepR m s t1)
    (h2 : StepR m s t2) : t1 = t2 :=
  Option.some.inj ((stepR_step h1).symm.trans (stepR_step h2))

/-- Multi-step runs of the machine. -/
def Steps (m : Module) : State → State → Prop := Relation.ReflTransGen (StepR m)

lemma isFinal_no_step {m : Module} {s : State} (hf : isFinal s = true) :
    step m s = none := by
  obtain ⟨c, env, kont, i, o⟩ := s
  cases c with
  | Evaluating => rfl
  | Expr e => simp [isFinal] at hf
  | Value v =>
    cases v with
    | Num n =>
      simp [isFinal] at hf
      subst hf
      rfl
    | Pack tg a =>
      simp [isFinal] at hf
      subst hf
      rfl
    | PAP p a miss => simp [isFinal] at hf

lemma isFinal_no_stepR {m : Module} {s t : State} (hf : isFinal s = true)
    (h : StepR m s t) : False := by
  have h1 := isFinal_no_step (m := m) hf
  rw [stepR_step h] at h1
  exact Option.noConfusion h1

/-- A run from a state to a final state is unique. -/
theorem steps_final_unique {m : Module} {s t1 t2 : State} (h1 : Steps m s t1)
    (f1 : isFinal t1 = true) (h2 : Steps m s t2) (f2 : isFinal t2 = true) : t1 = t2 := by
  unfold Steps at h1 h2
  induction h1 using Relation.ReflTransGen.head_induction_on with
  | refl =>
    rcases h2.cases_head with rfl | ⟨c, hstep, _⟩
    · rfl
    · exact absurd hstep (fun h => isFinal_no_stepR f1 h)
  | head hstep hrest ih =>
    rcases h2.cases_head with rfl | ⟨c2, hstep2, hrest2⟩
    · exact absurd hstep (fun h => isFinal_no_stepR f2 h)
    · cases stepR_det hstep hstep2
      exact ih hrest2

/-! ## The claims -/

lemma wrap64_spec (x : Int) :
    (x - wrap64 x) % 2 ^ 64 = 0 ∧ -(2 ^ 63) ≤ wrap64 x ∧ wrap64 x < 2 ^ 63 := by
  have h64 : (2 : Int) ^ 64 = 18446744073709551616 := by norm_num
  have h63 : (2 : Int) ^ 63 = 9223372036854775808 := by norm_num
  unfold wrap64
  rw [h64, h63]
  omega

/-- Claim C1: for every pair of `Num` arguments, `add`, `sub` and `mul`
return the two's-complement 64-bit wrapping sum, difference and product,
and `neg` the wrapping negation: the result differs from the exact value
by a multiple of `2 ^ 64`, lies in `i64` range, and evaluation always
succeeds (never aborts). -/
theorem c1_builtin_arith_wraps (a b : Int) (i o : List Nat) :
    (∃ r, evalExternal .add [.Num a, .Num b] i o = some (.Num r, i, o) ∧
      (a + b - r) % 2 ^ 64 = 0 ∧ -(2 ^ 63) ≤ r ∧ r < 2 ^ 63) ∧
    (∃ r, evalExternal .sub [.Num a, .Num b] i o = some (.Num r, i, o) ∧
      (a - b - r) % 2 ^ 64 = 0 ∧ -(2 ^ 63) ≤ r ∧ r < 2 ^ 63) ∧
    (∃ r, evalExternal .mul [.Num a, .Num b] i o = some (.Num r, i, o) ∧
      (a * b - r) % 2 ^ 64 = 0 ∧ -(2 ^ 63) ≤ r ∧ r < 2 ^ 63) ∧
    (∃ r, evalExternal .neg [.Num a] i o = some (.Num r, i, o) ∧
      (-a - r) % 2 ^ 64 = 0 ∧ -(2 ^ 63) ≤ r ∧ r < 2 ^ 63) := by
  refine ⟨⟨wrap64 (a + b), rfl, wrap64_spec (a + b)⟩,
    ⟨wrap64 (a - b), rfl, wrap64_spec (a - b)⟩,
    ⟨wrap64 (a * b), rfl, wrap64_spec (a * b)⟩,
    ⟨wrap64 (-a), rfl, wrap64_spec (-a)⟩⟩

/-- The program `Ap(seq, [puti(1), puti(2)])` from the spec. -/
def seqProg : Expr :=
  .Ap (.External .seq) [.Ap (.External .puti) [.Num 1], .Ap (.External .puti) [.Num 2]]

/-- Claim C2: an `Args` frame always evaluates the head argument first,
deferring the rest, so argument I/O effects occur left to right; in
particular running `Ap(seq, [puti(1), puti(2)])` writes exactly the bytes
`"1\n2\n"` (`[49, 10, 50, 10]`), never `"2\n1\n"` — the run is a function
of the inputs and computes this single output. -/
theorem c2_args_left_to_right :
    (∀ (m : Module) (prim : Prim) (args : List Value) (mm : Nat) (a : Expr)
      (rest : List Expr) (env : List Value) (ks : List Kont) (i o : List Nat),
      step m ⟨.Value (.PAP prim args (mm + 1)), env, .Args (a :: rest) :: ks, i, o⟩ =
        some ⟨.Expr a, env,
          .Fun prim args (mm + 1) :: (if rest.isEmpty then ks else .Args rest :: ks), i, o⟩) ∧
    runF [] 40 (fromExpr seqProg []) =
      some (19, ⟨.Value (.Pack 0 []), [], [], [], [49, 10, 50, 10]⟩) := by
  constructor
  · intro m prim args mm a rest env ks i o
    rfl
  · rfl

/-- Claim C3: after every number of steps from an initial state, every
`PAP(p, a, m)` reachable in the state (control, environment, or any
continuation frame) satisfies `a.length + m = p.arity` (`m ≥ 0` holds
by typing), per `StateOK`. -/
theorem c3_pap_arity_invariant (m : Module) (e : Expr) (inp : List Nat) (n : Nat)
    (t : State) (h : stepN m n (fromExpr e inp) = some t) : StateOK t :=
  stateOK_stepN (stateOK_fromExpr e inp) h

/-- Concrete instance of C3: one step from `Extern(add)` reaches the state
holding `PAP(Extern(add), [], 2)`, which is well formed. -/
theorem c3_pap_arity_invariant_witness :
    stepN [] 1 (fromExpr (.External .add) []) =
      some ⟨.Value (.PAP (.External .add) [] 2), [], [], [], []⟩ ∧
    StateOK ⟨.Value (.PAP (.External .add) [] 2), [], [], [], []⟩ :=
  ⟨rfl, c3_pap_arity_invariant [] (.External .add) [] 1 _ rfl⟩

lemma utf8EncodeByte_decode {cp : Nat} (h : cp < 256) :
    utf8Decode (utf8EncodeByte cp) = some [cp] := by
  by_cases h1 : cp < 128
  · rw [utf8EncodeByte, if_pos h1]
    show (if cp < 128 then (utf8Decode []).map (cp :: ·) else _) = some [cp]
    rw [if_pos h1]
    rfl
  · rw [utf8EncodeByte, if_neg h1]
    show (if 192 + cp / 64 < 128 then _
      else if 192 + cp / 64 < 194 then none
      else if 192 + cp / 64 < 224 then
        (if 128 ≤ 128 + cp % 64 ∧ 128 + cp % 64 < 192 then
          (utf8Decode []).map
            ((((192 + cp / 64) - 192) * 64 + ((128 + cp % 64) - 128)) :: ·)
        else none)
      else _) = some [cp]
    rw [if_neg (by omega : ¬192 + cp / 64 < 128),
      if_neg (by omega : ¬192 + cp / 64 < 194),
      if_pos (by omega : 192 + cp / 64 < 224),
      if_pos (show 128 ≤ 128 + cp % 64 ∧ 128 + cp % 64 < 192 by constructor <;> omega)]
    have hcp : (192 + cp / 64 - 192) * 64 + (128 + cp % 64 - 128) = cp := by omega
    simp only [hcp]
    rfl

/-- Counterexample to claim C4 as stated: for the argument `200` the
low byte is `200`, yet `putc` appends the two bytes `[195, 136]` (the
UTF-8 encoding of U+00C8) to the output, not a single byte. -/
theorem c4_putc_counterexample :
    evalExternal .putc [.Num 200] [] [] = some (.Pack 0 [], [], [195, 136]) ∧
    [195, 136] ≠ [(200 : Int) % 256 |>.toNat] := ⟨rfl, by decide⟩

/-- Claim C4 (amended): for every integer argument `n`, `putc` writes the
UTF-8 encoding of the Unicode character whose code point is the low byte
`n mod 256` — a single byte when `n mod 256 < 128` and two bytes
otherwise — and returns the unit value `Pack(0, [])`.  The bytes written
decode back to exactly that one code point. -/
theorem c4_putc_utf8_low_byte (n : Int) (i o : List Nat) :
    evalExternal .putc [.Num n] i o =
      some (.Pack 0 [], i, o ++ utf8EncodeByte (n % 256).toNat) ∧
    (utf8EncodeByte (n % 256).toNat).length =
      (if (n % 256).toNat < 128 then 1 else 2) ∧
    utf8Decode (utf8EncodeByte (n % 256).toNat) = some [(n % 256).toNat] := by
  have hlt : (n % 256).toNat < 256 := by
    have h1 : 0 ≤ n % 256 := Int.emod_nonneg n (by norm_num)
    have h2 : n % 256 < 256 := Int.emod_lt_of_pos n (by norm_num)
    omega
  refine ⟨rfl, ?_, utf8EncodeByte_decode hlt⟩
  unfold utf8EncodeByte
  split <;> simp

/-- Claim C5: evaluating `Local(i)` with `1 ≤ i ≤ len` sets the control to
the value at position `len - i` from the bottom of the environment (the
i-th element from the top); `i = 0` or `i > len` is fatal. -/
theorem c5_local_env_lookup (m : Module) (name : String) (idx : Nat)
    (env : List Value) (kont : List Kont) (i o : List Nat) :
    (1 ≤ idx → idx ≤ env.length →
      ∃ v, env.get? (env.length - idx) = some v ∧
        step m ⟨.Expr (.Local name idx), env, kont, i, o⟩ =
          some ⟨.Value v, env, kont, i, o⟩) ∧
    ((idx = 0 ∨ env.length < idx) →
      step m ⟨.Expr (.Local name idx), env, kont, i, o⟩ = none) := by
  constructor
  · intro h1 h2
    have hget : envGet env idx = env.get? (env.length - idx) := by
      unfold envGet
      rw [if_pos ⟨h1, h2⟩]
    cases hv : env.get? (env.length - idx) with
    | none =>
      rw [List.get?_eq_none] at hv
      omega
    | some v =>
      refine ⟨v, rfl, ?_⟩
      show (envGet env idx).map _ = _
      rw [hget, hv]
      rfl
  · intro h
    have hget : envGet env idx = none := by
      unfold envGet
      rw [if_neg]
      rcases h with rfl | h
      · omega
      · intro hx
        omega
    show (envGet env idx).map _ = _
    rw [hget]
    rfl

/-- Concrete instance of C5: in the two-element environment
`[Num 7, Num 8]`, index `1` resolves to the top value `Num 8`,
and index `3` is fatal. -/
theorem c5_local_env_lookup_witness :
    (∃ v, [Value.Num 7, Value.Num 8].get?
        ([Value.Num 7, Value.Num 8].length - 1) = some v ∧
      step [] ⟨.Expr (.Local "x" 1), [.Num 7, .Num 8], [], [], []⟩ =
        some ⟨.Value v, [.Num 7, .Num 8], [], [], []⟩) ∧
    step [] ⟨.Expr (.Local "x" 3), [.Num 7, .Num 8], [], [], []⟩ = none :=
  ⟨(c5_local_env_lookup [] "x" 1 [.Num 7, .Num 8] [] [] []).1 (by omega) (by simp),
   (c5_local_env_lookup [] "x" 3 [.Num 7, .Num 8] [] [] []).2 (Or.inr (by simp))⟩

/-- Claim C6: `getc` returns `Num(-1)` at end of input (the only read
error representable in the byte-stream model) and otherwise the byte
read; `geti` is fatal when its line fails to decode or fails to parse as
a signed decimal integer (including the empty line at end of input), and
otherwise returns the parsed integer of the line with surrounding
whitespace trimmed. -/
theorem c6_getc_geti (a : Value) (input output : List Nat) :
    (evalExternal .getc [a] [] output = some (.Num (-1), [], output)) ∧
    (∀ b rest, evalExternal .getc [a] (b :: rest) output =
      some (.Num (Int.ofNat b), rest, output)) ∧
    (utf8Decode (splitLine input).1 = none →
      evalExternal .geti [a] input output = none) ∧
    (∀ cps, utf8Decode (splitLine input).1 = some cps →
      rustParseI64 (rustTrim cps) = none →
      evalExternal .geti [a] input output = none) ∧
    (∀ cps nv, utf8Decode (splitLine input).1 = some cps →
      rustParseI64 (rustTrim cps) = some nv →
      evalExternal .geti [a] input output = some (.Num nv, (splitLine input).2, output)) := by
  refine ⟨rfl, fun b rest => rfl, ?_, ?_, ?_⟩
  · intro hd
    show (utf8Decode (splitLine input).1).bind _ = none
    rw [hd]
    rfl
  · intro cps hd hp
    show (utf8Decode (splitLine input).1).bind _ = none
    rw [hd]
    show (rustParseI64 (rustTrim cps)).bind _ = none
    rw [hp]
    rfl
  · intro cps nv hd hp
    show (utf8Decode (splitLine input).1).bind _ = _
    rw [hd]
    show (rustParseI64 (rustTrim cps)).bind _ = _
    rw [hp]
    rfl

/-- Concrete instances of C6: `getc` on empty input yields `-1`; `geti`
on the line `"42\n"` yields `42`; `geti` at end of input and on the
unparseable line `"abc\n"` is fatal. -/
theorem c6_getc_geti_witness :
    evalExternal .getc [.Pack 0 []] [] [] = some (.Num (-1), [], []) ∧
    evalExternal .geti [.Pack 0 []] [52, 50, 10] [] = some (.Num 42, [], []) ∧
    evalExternal .geti [.Pack 0 []] [] [] = none ∧
    evalExternal .geti [.Pack 0 []] [97, 98, 99, 10] [] = none :=
  ⟨(c6_getc_geti (.Pack 0 []) [] []).1,
   (c6_getc_geti (.Pack 0 []) [52, 50, 10] []).2.2.2.2 [52, 50, 10] 42 rfl rfl,
   (c6_getc_geti (.Pack 0 []) [] []).2.2.2.1 [] rfl rfl,
   (c6_getc_geti (.Pack 0 []) [97, 98, 99, 10] []).2.2.2.1 [97, 98, 99, 10] rfl rfl⟩

/-- Claim C7: a `Pop(n)` frame popped with a value removes exactly `n`
entries from the environment (the remaining stack is the prefix of
length `len - n`); the `Let` and `Match` transitions push exactly as
many environment entries as the `Pop` frame they install will remove, so
the environment length returns to its pre-binding value when the body or
alternative finishes. -/
theorem c7_pop_exact (m : Module) (v : Value) (count : Nat) (env : List Value)
    (ks : List Kont) (i o : List Nat) (hns : isSatPAP v = false) :
    (count ≤ env.length →
      step m ⟨.Value v, env, .Pop count :: ks, i, o⟩ =
        some ⟨.Value v, env.take (env.length - count), ks, i, o⟩ ∧
      (env.take (env.length - count)).length = env.length - count) ∧
    (∀ (nm : String) (body : Expr),
      step m ⟨.Value v, env, .Let nm body :: ks, i, o⟩ =
        some ⟨.Expr body, env ++ [v], .Pop 1 :: ks, i, o⟩ ∧
      (env ++ [v]).length = env.length + 1) ∧
    (∀ (tag : Nat) (argsv : List Value) (altns : List Altn) (altn : Altn),
      altns.get? tag = some altn →
      step m ⟨.Value (.Pack tag argsv), env, .Match altns :: ks, i, o⟩ =
        some ⟨.Expr altn.rhs, env ++ argsv, .Pop argsv.length :: ks, i, o⟩ ∧
      (env ++ argsv).length = env.length + argsv.length) := by
  refine ⟨?_, ?_, ?_⟩
  · intro hle
    have hp : envPop env count = some (env.take (env.length - count)) := by
      unfold envPop
      rw [if_pos hle]
    constructor
    · rw [step_value_notsat hns]
      show (envPop env count).map _ = _
      rw [hp]
      rfl
    · simp [List.length_take]
  · intro nm body
    constructor
    · rw [step_value_notsat hns]
      rfl
    · simp
  · intro tag argsv altns altn ha
    constructor
    · rw [step_value_notsat (show isSatPAP (.Pack tag argsv) = false from rfl)]
      simp only [stepKont]
      rw [ha]
    · simp

/-- Concrete instance of C7: popping `Pop(1)` with value `Num 5` removes
exactly the one entry a preceding `Let` pushed, restoring the
environment `[Num 7]` of length 1 to empty-of-the-binding form. -/
theorem c7_pop_exact_witness :
    (step [] ⟨.Value (.Num 5), [.Num 7], [.Pop 1], [], []⟩ =
      some ⟨.Value (.Num 5), [], [], [], []⟩) ∧
    (step [] ⟨.Value (.Num 5), [.Num 7], [.Let "x" (.Num 9)], [], []⟩ =
      some ⟨.Expr (.Num 9), [.Num 7, .Num 5], [.Pop 1], [], []⟩) :=
  ⟨((c7_pop_exact [] (.Num 5) 1 [.Num 7] [] [] [] rfl).1 (by simp)).1,
   ((c7_pop_exact [] (.Num 5) 1 [.Num 7] [] [] [] rfl).2.1 "x" (.Num 9)).1⟩

/-- Claim C8: `is_final` holds exactly when the control is a `Num` or
`Pack` value and the continuation stack is empty; with the empty module,
a literal `Num` entry halts in 1 step with that value and an empty
continuation stack, and a 0-arity `Pack` entry halts in 2 steps with the
constructed value; the driver returns the step count. -/
theorem c8_is_final :
    (∀ s : State, isFinal s = true ↔
      ((∃ n, s.ctrl = .Value (.Num n)) ∨ ∃ tg a, s.ctrl = .Value (.Pack tg a)) ∧
        s.kont = []) ∧
    (∀ (k : Int) (inp : List Nat),
      runF [] 1 (fromExpr (.Num k) inp) =
        some (1, ⟨.Value (.Num k), [], [], inp, []⟩)) ∧
    (∀ (tg : Nat) (inp : List Nat),
      runF [] 2 (fromExpr (.Pack tg 0) inp) =
        some (2, ⟨.Value (.Pack tg []), [], [], inp, []⟩)) := by
  refine ⟨?_, fun k inp => rfl, fun tg inp => rfl⟩
  intro s
  obtain ⟨c, env, kont, i, o⟩ := s
  cases c with
  | Evaluating => simp [isFinal]
  | Expr e => simp [isFinal]
  | Value v =>
    cases v with
    | Num n => cases kont <;> simp [isFinal]
    | Pack tg a => cases kont <;> simp [isFinal]
    | PAP p a miss => simp [isFinal]

/-- Claim C9: evaluation is deterministic: for the same module, entry
expression and input byte stream, any two complete runs (reaching final
states) produce the same output byte sequence and the same final
value. -/
theorem c9_run_deterministic (m : Module) (e : Expr) (inp : List Nat) (t1 t2 : State)
    (h1 : Steps m (fromExpr e inp) t1) (f1 : isFinal t1 = true)
    (h2 : Steps m (fromExpr e inp) t2) (f2 : isFinal t2 = true) :
    t1.output = t2.output ∧ t1.ctrl = t2.ctrl := by
  cases steps_final_unique h1 f1 h2 f2
  exact ⟨rfl, rfl⟩

/-- Concrete instance of C9: the one-step run of the literal `42` entry. -/
theorem c9_run_deterministic_witness :
    (⟨.Value (.Num 42), [], [], [], []⟩ : State).output =
      (⟨.Value (.Num 42), [], [], [], []⟩ : State).output ∧
    (⟨.Value (.Num 42), [], [], [], []⟩ : State).ctrl =
      (⟨.Value (.Num 42), [], [], [], []⟩ : State).ctrl :=
  c9_run_deterministic [] (.Num 42) [] _ _
    (Relation.ReflTransGen.single (StepR.num 42 [] [] [] [])) rfl
    (Relation.ReflTransGen.single (StepR.num 42 [] [] [] [])) rfl

/-- Claim C10: in every reachable state, every `Fun(prim, collected,
missing)` continuation frame has `missing ≥ 1`, so the decrement
`missing - 1` performed when the frame is popped never underflows. -/
theorem c10_fun_missing_positive (m : Module) (e : Expr) (inp : List Nat) (n : Nat)
    (t : State) (h : stepN m n (fromExpr e inp) = some t) :
    ∀ p a mm, Kont.Fun p a mm ∈ t.kont → 1 ≤ mm := by
  intro p a mm hmem
  have hs := stateOK_stepN (m := m) (stateOK_fromExpr e inp) h
  have hk : KontOK (.Fun p a mm) := hs.2.2 _ hmem
  exact hk.2.1

/-- Concrete instance of C10: three steps into `Ap(seq, [puti(1),
puti(2)])` the stack holds `Fun(seq, [], 2)`, whose `missing` is
positive. -/
theorem c10_fun_missing_positive_witness :
    stepN [] 3 (fromExpr seqProg []) =
      some ⟨.Expr (.Ap (.External .puti) [.Num 1]), [],
        [.Fun (.External .seq) [] 2, .Args [.Ap (.External .puti) [.Num 2]]], [], []⟩ ∧
    (1 : Nat) ≤ 2 :=
  ⟨rfl, c10_fun_missing_positive [] seqProg [] 3 _ rfl (.External .seq) [] 2
    (by simp [Ext.arity])⟩

end Ruceki
